import Mathlib

/-
  Verification of the Hull-White trinomial lattice engine
  (financepy/models/FinHullWhiteRateModel.py).

  The floating-point arithmetic of the source is embedded as exact real
  arithmetic.  Arrays indexed by the spatial offset jN = j + N are embedded
  as total functions on the integers; the spatial index j and the array
  offset j + jmax are interconvertible and each definition records which
  convention it uses.
-/

noncomputable section

/-- Transition probability pu of buildTreeFast: three closed-form cases on
the spatial index j (top boundary j = jmax, bottom boundary j = -jmax,
interior), each a polynomial in ajdt = a*j*dt. -/
def probUp (a dt : ℝ) (jmax j : ℤ) : ℝ :=
  let ajdt : ℝ := a * j * dt
  if j = jmax then 7/6 + 0.5 * (ajdt * ajdt - 3 * ajdt)
  else if j = -jmax then 1/6 + 0.5 * (ajdt * ajdt + ajdt)
  else 1/6 + 0.5 * (ajdt * ajdt - ajdt)

/-- Transition probability pm of buildTreeFast. -/
def probMid (a dt : ℝ) (jmax j : ℤ) : ℝ :=
  let ajdt : ℝ := a * j * dt
  if j = jmax then -1/3 - ajdt * ajdt + 2 * ajdt
  else if j = -jmax then -1/3 - ajdt * ajdt - 2 * ajdt
  else 2/3 - ajdt * ajdt

/-- Transition probability pd of buildTreeFast. -/
def probDn (a dt : ℝ) (jmax j : ℤ) : ℝ :=
  let ajdt : ℝ := a * j * dt
  if j = jmax then 1/6 + 0.5 * (ajdt * ajdt - ajdt)
  else if j = -jmax then 7/6 + 0.5 * (ajdt * ajdt + 3 * ajdt)
  else 1/6 + 0.5 * (ajdt * ajdt + ajdt)

lemma prob_sum (a dt : ℝ) (jmax j : ℤ) :
    probUp a dt jmax j + probMid a dt jmax j + probDn a dt jmax j = 1 := by
  unfold probUp probMid probDn
  split_ifs <;> ring

/-- Pointwise increment of a function, the embedding of the statement
Q[m+1, i] += x on an array row represented as a total function. -/
def addTo (f : ℤ → ℝ) (i : ℤ) (x : ℝ) : ℤ → ℝ :=
  fun t => if t = i then f t + x else f t

/-- One source node of the Arrow-Debreu propagation loop of buildTreeFast:
node j sends mass * pu, mass * pm, mass * pd to its three branch targets,
where mass = Q[m,j] * exp(-r*dt), following the three-way dispatch of the
source (top node j = jmax branches to j, j-1, j-2; bottom node j = -jmax
to j, j+1, j+2; interior nodes to j+1, j, j-1). -/
def scatterQ (jmax : ℤ) (pu pm pd : ℤ → ℝ) (j : ℤ) (mass : ℝ)
    (f : ℤ → ℝ) : ℤ → ℝ :=
  if j = jmax then
    addTo (addTo (addTo f j (mass * pu j)) (j - 1) (mass * pm j)) (j - 2) (mass * pd j)
  else if j = -jmax then
    addTo (addTo (addTo f j (mass * pd j)) (j + 1) (mass * pm j)) (j + 2) (mass * pu j)
  else
    addTo (addTo (addTo f (j + 1) (mass * pu j)) j (mass * pm j)) (j - 1) (mass * pd j)

/-- The branching pattern in indicator form, written from the words of the
claim on the propagation step: the top node sends pu, pm, pd to j, j-1, j-2,
the bottom node sends pd, pm, pu to j, j+1, j+2, and interior nodes send
pu, pm, pd to j+1, j, j-1.  Used to characterize scatterQ. -/
def branchWeight (jmax : ℤ) (pu pm pd : ℤ → ℝ) (j t : ℤ) : ℝ :=
  if j = jmax then
    (if t = j then pu j else 0) + (if t = j - 1 then pm j else 0)
      + (if t = j - 2 then pd j else 0)
  else if j = -jmax then
    (if t = j then pd j else 0) + (if t = j + 1 then pm j else 0)
      + (if t = j + 2 then pu j else 0)
  else
    (if t = j + 1 then pu j else 0) + (if t = j then pm j else 0)
      + (if t = j - 1 then pd j else 0)

lemma addTo_apply (f : ℤ → ℝ) (i : ℤ) (x : ℝ) (t : ℤ) :
    addTo f i x t = f t + (if t = i then x else 0) := by
  unfold addTo
  split_ifs <;> ring

lemma scatterQ_apply (jmax : ℤ) (pu pm pd : ℤ → ℝ) (j : ℤ) (mass : ℝ)
    (f : ℤ → ℝ) (t : ℤ) :
    scatterQ jmax pu pm pd j mass f t
      = f t + mass * branchWeight jmax pu pm pd j t := by
  unfold scatterQ branchWeight
  split_ifs <;> simp only [addTo_apply] <;> split_ifs <;> ring

/-- The list of spatial indices -nm, ..., nm that the inner loops of
buildTreeFast run over (for j in range(-nm, nm+1)). -/
def intRange (lo : ℤ) (n : ℕ) : List ℤ :=
  (List.range n).map fun i => lo + (i : ℤ)

/-- sumQZ of buildTreeFast: the Q-weighted sum of exp(-j*dR*dt) over the
occupied nodes of one time step. -/
def hwSumQZ (Qm : ℤ → ℝ) (nm : ℤ) (dR dt : ℝ) : ℝ :=
  ∑ j ∈ Finset.Icc (-nm) nm, Qm j * Real.exp (-((j : ℝ) * dR * dt))

/-- The Arrow-Debreu surface Q of buildTreeFast, indexed by time step and
spatial index j (the source stores node j of row m at array offset j + N
with N = jmax; rows are zero outside the occupied range).  Row 0 is the
unit mass at the center; row m+1 is produced by the propagation loop over
the occupied nodes j of row m, where each node scatters
Q[m,j] * prob * exp(-r[m,j]*dt) to its three branch targets and
r[m,j] = alpha[m] + j*dR with alpha[m] = log(sumQZ/df[m+1])/dt. -/
def hwQ (a dR dt : ℝ) (jmax : ℤ) (dfs : ℕ → ℝ) : ℕ → ℤ → ℝ
  | 0 => fun j => if j = 0 then 1 else 0
  | m + 1 =>
    (intRange (-(min (m : ℤ) jmax)) (2 * (min (m : ℤ) jmax) + 1).toNat).foldl
      (fun f j =>
        scatterQ jmax (probUp a dt jmax) (probMid a dt jmax) (probDn a dt jmax) j
          (hwQ a dR dt jmax dfs m j *
            Real.exp (-((Real.log (hwSumQZ (hwQ a dR dt jmax dfs m)
                (min (m : ℤ) jmax) dR dt / dfs (m + 1)) / dt + (j : ℝ) * dR) * dt)))
          f)
      (fun _ => 0)

/-- alpha[m] of buildTreeFast, the calibrated drift of time step m. -/
def hwAlpha (a dR dt : ℝ) (jmax : ℤ) (dfs : ℕ → ℝ) (m : ℕ) : ℝ :=
  Real.log (hwSumQZ (hwQ a dR dt jmax dfs m) (min (m : ℤ) jmax) dR dt
    / dfs (m + 1)) / dt

/-- rt[m,j] of buildTreeFast, the short rate at node (m,j). -/
def hwRt (a dR dt : ℝ) (jmax : ℤ) (dfs : ℕ → ℝ) (m : ℕ) (j : ℤ) : ℝ :=
  hwAlpha a dR dt jmax dfs m + (j : ℝ) * dR

lemma foldl_scatterQ_apply (jmax : ℤ) (pu pm pd : ℤ → ℝ) (mass : ℤ → ℝ)
    (L : List ℤ) : ∀ (f0 : ℤ → ℝ) (t : ℤ),
    (L.foldl (fun f j => scatterQ jmax pu pm pd j (mass j) f) f0) t
      = f0 t + (L.map (fun j => mass j * branchWeight jmax pu pm pd j t)).sum := by
  induction L with
  | nil => intro f0 t; simp
  | cons j L ih =>
      intro f0 t
      simp only [List.foldl_cons, List.map_cons, List.sum_cons]
      rw [ih, scatterQ_apply]
      ring

lemma intRange_map_sum (g : ℤ → ℝ) (lo : ℤ) (n : ℕ) :
    ((intRange lo n).map g).sum = ∑ j ∈ Finset.Icc lo (lo + n - 1), g j := by
  induction n with
  | zero =>
      rw [Finset.Icc_eq_empty (by omega)]
      simp [intRange]
  | succ n ih =>
      have h1 : intRange lo (n + 1) = intRange lo n ++ [lo + (n : ℤ)] := by
        simp [intRange, List.range_succ]
      have h2 : Finset.Icc lo (lo + ((n : ℕ) + 1 : ℕ) - 1)
          = insert (lo + (n : ℤ)) (Finset.Icc lo (lo + n - 1)) := by
        ext x
        simp only [Finset.mem_Icc, Finset.mem_insert]
        push_cast
        omega
      rw [h1, List.map_append, List.sum_append, ih, h2,
        Finset.sum_insert (by simp only [Finset.mem_Icc]; omega)]
      simp
      ring

lemma hwQ_succ_apply (a dR dt : ℝ) (jmax : ℤ) (dfs : ℕ → ℝ) (hjmax : 0 ≤ jmax)
    (m : ℕ) (t : ℤ) :
    hwQ a dR dt jmax dfs (m + 1) t
      = ∑ j ∈ Finset.Icc (-(min (m : ℤ) jmax)) (min (m : ℤ) jmax),
          hwQ a dR dt jmax dfs m j * Real.exp (-(hwRt a dR dt jmax dfs m j * dt))
            * branchWeight jmax (probUp a dt jmax) (probMid a dt jmax)
                (probDn a dt jmax) j t := by
  have hnm : (0 : ℤ) ≤ min (m : ℤ) jmax := le_min (by positivity) hjmax
  have hb : -(min (m : ℤ) jmax) + ((2 * min (m : ℤ) jmax + 1).toNat : ℤ) - 1
      = min (m : ℤ) jmax := by
    rw [Int.toNat_of_nonneg (by omega)]
    ring
  simp only [hwQ]
  rw [foldl_scatterQ_apply, intRange_map_sum, hb, zero_add]
  simp only [hwRt, hwAlpha]

lemma sum_branchWeight (jmax nmp : ℤ) (pu pm pd : ℤ → ℝ) (j : ℤ)
    (htop : j = jmax → -nmp ≤ j - 2 ∧ j ≤ nmp)
    (hbot : j ≠ jmax → j = -jmax → -nmp ≤ j ∧ j + 2 ≤ nmp)
    (hint : j ≠ jmax → j ≠ -jmax → -nmp ≤ j - 1 ∧ j + 1 ≤ nmp) :
    ∑ t ∈ Finset.Icc (-nmp) nmp, branchWeight jmax pu pm pd j t
      = pu j + pm j + pd j := by
  unfold branchWeight
  split_ifs with h1 h2
  · obtain ⟨hA, hB⟩ := htop h1
    simp only [Finset.sum_add_distrib, Finset.sum_ite_eq', Finset.mem_Icc]
    rw [if_pos (show -nmp ≤ j ∧ j ≤ nmp by omega),
      if_pos (show -nmp ≤ j - 1 ∧ j - 1 ≤ nmp by omega),
      if_pos (show -nmp ≤ j - 2 ∧ j - 2 ≤ nmp by omega)]
  · obtain ⟨hA, hB⟩ := hbot h1 h2
    simp only [Finset.sum_add_distrib, Finset.sum_ite_eq', Finset.mem_Icc]
    rw [if_pos (show -nmp ≤ j ∧ j ≤ nmp by omega),
      if_pos (show -nmp ≤ j + 1 ∧ j + 1 ≤ nmp by omega),
      if_pos (show -nmp ≤ j + 2 ∧ j + 2 ≤ nmp by omega)]
    ring
  · obtain ⟨hA, hB⟩ := hint h1 h2
    simp only [Finset.sum_add_distrib, Finset.sum_ite_eq', Finset.mem_Icc]
    rw [if_pos (show -nmp ≤ j + 1 ∧ j + 1 ≤ nmp by omega),
      if_pos (show -nmp ≤ j ∧ j ≤ nmp by omega),
      if_pos (show -nmp ≤ j - 1 ∧ j - 1 ≤ nmp by omega)]

lemma hwQ_succ_sum (a dR dt : ℝ) (jmax : ℤ) (dfs : ℕ → ℝ) (hjmax : 1 ≤ jmax)
    (m : ℕ) :
    ∑ t ∈ Finset.Icc (-(min ((m : ℤ) + 1) jmax)) (min ((m : ℤ) + 1) jmax),
        hwQ a dR dt jmax dfs (m + 1) t
      = ∑ j ∈ Finset.Icc (-(min (m : ℤ) jmax)) (min (m : ℤ) jmax),
          hwQ a dR dt jmax dfs m j
            * Real.exp (-(hwRt a dR dt jmax dfs m j * dt)) := by
  have h1 : ∀ t ∈ Finset.Icc (-(min ((m : ℤ) + 1) jmax)) (min ((m : ℤ) + 1) jmax),
      hwQ a dR dt jmax dfs (m + 1) t
        = ∑ j ∈ Finset.Icc (-(min (m : ℤ) jmax)) (min (m : ℤ) jmax),
            hwQ a dR dt jmax dfs m j * Real.exp (-(hwRt a dR dt jmax dfs m j * dt))
              * branchWeight jmax (probUp a dt jmax) (probMid a dt jmax)
                  (probDn a dt jmax) j t :=
    fun t _ => hwQ_succ_apply a dR dt jmax dfs (by omega) m t
  rw [Finset.sum_congr rfl h1, Finset.sum_comm]
  apply Finset.sum_congr rfl
  intro j hj
  obtain ⟨hjl, hju⟩ := Finset.mem_Icc.mp hj
  rw [← Finset.mul_sum,
    sum_branchWeight jmax (min ((m : ℤ) + 1) jmax) _ _ _ j
      (fun hh => ⟨by omega, by omega⟩)
      (fun hh1 hh2 => ⟨by omega, by omega⟩)
      (fun hh1 hh2 => ⟨by omega, by omega⟩),
    prob_sum, mul_one]

lemma hwQ_calibration (a dR dt : ℝ) (jmax : ℤ) (dfs : ℕ → ℝ) (m : ℕ)
    (hdt : dt ≠ 0)
    (hQZ : 0 < hwSumQZ (hwQ a dR dt jmax dfs m) (min (m : ℤ) jmax) dR dt)
    (hdf : 0 < dfs (m + 1)) :
    ∑ j ∈ Finset.Icc (-(min (m : ℤ) jmax)) (min (m : ℤ) jmax),
        hwQ a dR dt jmax dfs m j * Real.exp (-(hwRt a dR dt jmax dfs m j * dt))
      = dfs (m + 1) := by
  set S := hwSumQZ (hwQ a dR dt jmax dfs m) (min (m : ℤ) jmax) dR dt with hS
  have hxpand : ∀ j : ℤ, Real.exp (-(hwRt a dR dt jmax dfs m j * dt))
      = dfs (m + 1) / S * Real.exp (-((j : ℝ) * dR * dt)) := by
    intro j
    rw [hwRt, hwAlpha, ← hS]
    have he : -((Real.log (S / dfs (m + 1)) / dt + (j : ℝ) * dR) * dt)
        = -(Real.log (S / dfs (m + 1)) / dt * dt) + -((j : ℝ) * dR * dt) := by
      ring
    rw [he, Real.exp_add]
    congr 1
    rw [div_mul_cancel₀ _ hdt, Real.exp_neg, Real.exp_log (div_pos hQZ hdf),
      inv_div]
  have hstep : ∀ j ∈ Finset.Icc (-(min (m : ℤ) jmax)) (min (m : ℤ) jmax),
      hwQ a dR dt jmax dfs m j * Real.exp (-(hwRt a dR dt jmax dfs m j * dt))
        = dfs (m + 1) / S * (hwQ a dR dt jmax dfs m j
            * Real.exp (-((j : ℝ) * dR * dt))) := by
    intro j _
    rw [hxpand]
    ring
  rw [Finset.sum_congr rfl hstep, ← Finset.mul_sum]
  have hsum : ∑ j ∈ Finset.Icc (-(min (m : ℤ) jmax)) (min (m : ℤ) jmax),
      hwQ a dR dt jmax dfs m j * Real.exp (-((j : ℝ) * dR * dt)) = S := by
    rw [hS, hwSumQZ]
  rw [hsum, div_mul_cancel₀ _ (ne_of_gt hQZ)]

lemma hwQ_sum (a dR dt : ℝ) (jmax : ℤ) (dfs : ℕ → ℝ) (hjmax : 1 ≤ jmax)
    (hdt : dt ≠ 0) (hdfs0 : dfs 0 = 1) (m : ℕ)
    (hQZ : ∀ k, k < m →
      0 < hwSumQZ (hwQ a dR dt jmax dfs k) (min (k : ℤ) jmax) dR dt)
    (hdf : ∀ k, 0 < dfs k) :
    ∑ j ∈ Finset.Icc (-(min (m : ℤ) jmax)) (min (m : ℤ) jmax),
        hwQ a dR dt jmax dfs m j = dfs m := by
  cases m with
  | zero =>
      have hmin : min ((0 : ℕ) : ℤ) jmax = 0 := by
        simp only [Nat.cast_zero]
        omega
      rw [hmin, neg_zero, Finset.Icc_self, Finset.sum_singleton]
      simp [hwQ, hdfs0]
  | succ n =>
      have hc : ((n + 1 : ℕ) : ℤ) = (n : ℤ) + 1 := by push_cast; ring
      rw [show min (((n + 1 : ℕ)) : ℤ) jmax = min ((n : ℤ) + 1) jmax from by
        rw [hc]]
      rw [hwQ_succ_sum a dR dt jmax dfs hjmax n]
      exact hwQ_calibration a dR dt jmax dfs n hdt (hQZ n (by omega)) (hdf (n + 1))

lemma hwQ_outside (a dR dt : ℝ) (jmax : ℤ) (dfs : ℕ → ℝ) (hjmax : 1 ≤ jmax) :
    ∀ (m : ℕ) (t : ℤ),
      (t < -(min (m : ℤ) jmax) ∨ min (m : ℤ) jmax < t) →
      hwQ a dR dt jmax dfs m t = 0 := by
  intro m
  induction m with
  | zero =>
      intro t ht
      have hmin : min ((0 : ℕ) : ℤ) jmax = 0 := by
        simp only [Nat.cast_zero]
        omega
      rw [hmin] at ht
      simp only [hwQ]
      rw [if_neg (by omega)]
  | succ n ih =>
      intro t ht
      have hc : ((n + 1 : ℕ) : ℤ) = (n : ℤ) + 1 := by push_cast; ring
      rw [hc] at ht
      rw [hwQ_succ_apply a dR dt jmax dfs (by omega) n t]
      apply Finset.sum_eq_zero
      intro j hj
      obtain ⟨hjl, hju⟩ := Finset.mem_Icc.mp hj
      have hbw : branchWeight jmax (probUp a dt jmax) (probMid a dt jmax)
          (probDn a dt jmax) j t = 0 := by
        unfold branchWeight
        split_ifs <;> first | (exfalso; omega) | norm_num
      rw [hbw, mul_zero]

/-- Model object built by FinHullWhiteRateModel.__init__: the mean
reversion speed a and the volatility sigma. -/
structure FinHullWhiteRateModel where
  a : ℝ
  sigma : ℝ

/-- FinHullWhiteRateModel.__init__: rejects a negative volatility, then a
negative mean reversion speed, before any model field is assigned; on
success it stores the two parameters. -/
def mkFinHullWhiteRateModel (a sigma : ℝ) :
    Except String FinHullWhiteRateModel :=
  if sigma < 0 then Except.error "Negative volatility not allowed."
  else if a < 0 then
    Except.error "Mean reversion speed parameter should be >= 0."
  else Except.ok { a := a, sigma := sigma }

/-- df_Tree of the source: for tmat = 0 the bare scalar 1.0 is returned
(modelled as the left summand); otherwise tmat/dt must be within 1e-6 of
its integer truncation (floor, since the times of the grid are
nonnegative), else the FinError is raised; on success the pair
(p, zeroRate) is returned, where p sums the Arrow-Debreu row at
timeStep = int(tmat/dt) + 1 over the whole grid (array offsets
0..2*jmax, spatial indices -jmax..jmax) and zeroRate = -log(p)/tmat. -/
def df_Tree (Q : ℕ → ℤ → ℝ) (jmax : ℤ) (dt tmat : ℝ) :
    Except String (ℝ ⊕ ℝ × ℝ) :=
  if tmat = 0 then Except.ok (Sum.inl 1)
  else if |tmat / dt - ((⌊tmat / dt⌋ : ℤ) : ℝ)| > 1e-6 then
    Except.error "Time not on tree time grid"
  else
    Except.ok (Sum.inr
      (∑ j ∈ Finset.Icc (-jmax) jmax, Q (⌊tmat / dt⌋.toNat + 1) j,
       -Real.log (∑ j ∈ Finset.Icc (-jmax) jmax, Q (⌊tmat / dt⌋.toNat + 1) j)
         / tmat))

/-- The method P of FinHullWhiteRateModel: the forward discount factor seen
at time t for payment at T, given the delta-period short rate Rt at t and
the three curve discount factors pt, ptd, pT. -/
def hwP (a sigma t T Rt delta pt ptd pT : ℝ) : ℝ :=
  let BtT := (1 - Real.exp (-a * (T - t))) / a
  let BtDelta := (1 - Real.exp (-a * delta)) / a
  let term1 := Real.log (pT / pt) - BtT / BtDelta * Real.log (ptd / pt)
  let term2 := sigma ^ 2 * (1 - Real.exp (-2 * a * t)) * BtT
    * (BtT - BtDelta) / (4 * a)
  Real.exp (term1 - term2 - BtT / BtDelta * delta * Rt)

/-- europeanOptionOnZeroCouponBond_Anal of the source, with the external
standard normal CDF passed in as Ncdf and the two discount factors already
read from the curve; returns the pair (callPrice, putPrice). -/
def europeanOptionOnZeroCouponBond_Anal (Ncdf : ℝ → ℝ)
    (a sigma texp tmat strikePrice face ptexp ptmat : ℝ) : ℝ × ℝ :=
  let sigmap := sigma / a * (1 - Real.exp (-a * (tmat - texp)))
    * Real.sqrt ((1 - Real.exp (-2 * a * texp)) / 2 / a)
  let h := Real.log (face * ptmat / (strikePrice * ptexp)) / sigmap
    + sigmap / 2
  (face * ptmat * Ncdf h - strikePrice * ptexp * Ncdf (h - sigmap),
   strikePrice * ptexp * Ncdf (-h + sigmap) - face * ptmat * Ncdf (-h))

/-- numpy read of a value-row entry in the rollback of bondOption: a
negative offset i wraps around to i + numNodes, which is how numpy resolves
the read of bondValues[m+1, kN-1] at kN = 0. -/
def readOfs (numNodes : ℤ) (v : ℤ → ℝ) (i : ℤ) : ℝ :=
  if i < 0 then v (i + numNodes) else v i

/-- One node of the backward-induction rollback of bondOption: the
probability-weighted discounted sum of the three child values of node k,
with the branch dispatch copied from the source, whose second test repeats
k == jmax instead of testing the bottom boundary k == -jmax. -/
def rollValue (jmax : ℤ) (pu pm pd df : ℝ) (v : ℤ → ℝ) (k : ℤ) : ℝ :=
  let kN := k + jmax
  let numNodes := 2 * jmax + 1
  if k = jmax then
    (pu * readOfs numNodes v kN + pm * readOfs numNodes v (kN - 1)
      + pd * readOfs numNodes v (kN - 2)) * df
  else if k = jmax then
    (pu * readOfs numNodes v (kN + 2) + pm * readOfs numNodes v (kN + 1)
      + pd * readOfs numNodes v kN) * df
  else
    (pu * readOfs numNodes v (kN + 1) + pm * readOfs numNodes v kN
      + pd * readOfs numNodes v (kN - 1)) * df

/-- The row-(m+1) array offsets read by the rollback of bondOption at node
k, following the same branch dispatch as rollValue (the dispatch of the
source, with its repeated k == jmax test). -/
def rollReadOffsets (jmax k : ℤ) : List ℤ :=
  let kN := k + jmax
  if k = jmax then [kN, kN - 1, kN - 2]
  else if k = jmax then [kN + 2, kN + 1, kN]
  else [kN + 1, kN, kN - 1]

/-- One time step of the bond-value rollback loop of bondOption (the write
to bondValues[m, kN], then the += flow), producing row m from row m+1;
offsets outside the occupied range keep their initial zero. -/
def rollStepBond (jmax : ℤ) (pu pm pd : ℤ → ℝ) (rt : ℕ → ℤ → ℝ) (dt : ℝ)
    (treeFlows : ℕ → ℝ) (face : ℝ) (m : ℕ) (bv : ℤ → ℝ) : ℤ → ℝ :=
  fun kN =>
    let k := kN - jmax
    let nm := min (m : ℤ) jmax
    if -nm ≤ k ∧ k ≤ nm then
      rollValue jmax (pu kN) (pm kN) (pd kN)
        (Real.exp (-(rt m kN * dt))) bv k + treeFlows m * face
    else 0

/-- One time step of the option-value rollback of bondOption: the hold
value, then, when americanExercise holds, the early-exercise overwrite
max(max(clean - strike, 0), hold) computed from the already-updated bond
row of the same step. -/
def rollStepOption (jmax : ℤ) (pu pm pd : ℤ → ℝ) (rt : ℕ → ℤ → ℝ) (dt : ℝ)
    (accrued : ℕ → ℝ) (strikePrice : ℝ) (american : Bool) (m : ℕ)
    (bvNew ov : ℤ → ℝ) : ℤ → ℝ :=
  fun kN =>
    let k := kN - jmax
    let nm := min (m : ℤ) jmax
    if -nm ≤ k ∧ k ≤ nm then
      let hold := rollValue jmax (pu kN) (pm kN) (pd kN)
        (Real.exp (-(rt m kN * dt))) ov k
      cond american (max (max (bvNew kN - accrued m - strikePrice) 0) hold) hold
    else 0

/-- The backward induction of bondOption: starting from the seeded
expiry-step rows, s applications of the per-step rollback give the pair
(bondValues row, optionValues row) of time step expiryStep - s. -/
def rollbackPair (jmax : ℤ) (pu pm pd : ℤ → ℝ) (rt : ℕ → ℤ → ℝ) (dt : ℝ)
    (treeFlows accrued : ℕ → ℝ) (face strikePrice : ℝ) (american : Bool)
    (expiryStep : ℕ) (seeds : (ℤ → ℝ) × (ℤ → ℝ)) :
    ℕ → (ℤ → ℝ) × (ℤ → ℝ)
  | 0 => seeds
  | s + 1 =>
    let p := rollbackPair jmax pu pm pd rt dt treeFlows accrued face
      strikePrice american expiryStep seeds s
    let bv := rollStepBond jmax pu pm pd rt dt treeFlows face
      (expiryStep - (s + 1)) p.1
    (bv, rollStepOption jmax pu pm pd rt dt accrued strikePrice american
      (expiryStep - (s + 1)) bv p.2)

/-- The values bondOption returns: (optionValues[0, N], bondValues[0, N])
at the root offset N = jmax after rolling the seeded expiry rows all the
way back to step 0. -/
def bondOptionResult (jmax : ℤ) (pu pm pd : ℤ → ℝ) (rt : ℕ → ℤ → ℝ) (dt : ℝ)
    (treeFlows accrued : ℕ → ℝ) (face strikePrice : ℝ) (american : Bool)
    (expiryStep : ℕ) (seeds : (ℤ → ℝ) × (ℤ → ℝ)) : ℝ × ℝ :=
  ((rollbackPair jmax pu pm pd rt dt treeFlows accrued face strikePrice
      american expiryStep seeds expiryStep).2 jmax,
   (rollbackPair jmax pu pm pd rt dt treeFlows accrued face strikePrice
      american expiryStep seeds expiryStep).1 jmax)

lemma readOfs_mono (numNodes : ℤ) (v w : ℤ → ℝ) (h : ∀ i, v i ≤ w i) (i : ℤ) :
    readOfs numNodes v i ≤ readOfs numNodes w i := by
  unfold readOfs
  split_ifs <;> apply h

lemma rollValue_mono (jmax : ℤ) (pu pm pd df : ℝ) (hpu : 0 ≤ pu)
    (hpm : 0 ≤ pm) (hpd : 0 ≤ pd) (hdf : 0 ≤ df) (v w : ℤ → ℝ)
    (hvw : ∀ i, v i ≤ w i) (k : ℤ) :
    rollValue jmax pu pm pd df v k ≤ rollValue jmax pu pm pd df w k := by
  unfold rollValue
  split_ifs <;>
    exact mul_le_mul_of_nonneg_right
      (add_le_add
        (add_le_add
          (mul_le_mul_of_nonneg_left (readOfs_mono _ _ _ hvw _) hpu)
          (mul_le_mul_of_nonneg_left (readOfs_mono _ _ _ hvw _) hpm))
        (mul_le_mul_of_nonneg_left (readOfs_mono _ _ _ hvw _) hpd)) hdf

lemma rollbackPair_mono (jmax : ℤ) (pu pm pd : ℤ → ℝ) (rt : ℕ → ℤ → ℝ)
    (dt : ℝ) (treeFlows accrued : ℕ → ℝ) (face strikePrice : ℝ)
    (expiryStep : ℕ) (seeds : (ℤ → ℝ) × (ℤ → ℝ))
    (hpu : ∀ i, 0 ≤ pu i) (hpm : ∀ i, 0 ≤ pm i) (hpd : ∀ i, 0 ≤ pd i) :
    ∀ s : ℕ,
      (rollbackPair jmax pu pm pd rt dt treeFlows accrued face strikePrice
          false expiryStep seeds s).1
        = (rollbackPair jmax pu pm pd rt dt treeFlows accrued face
            strikePrice true expiryStep seeds s).1
      ∧ ∀ kN,
          (rollbackPair jmax pu pm pd rt dt treeFlows accrued face
              strikePrice false expiryStep seeds s).2 kN
            ≤ (rollbackPair jmax pu pm pd rt dt treeFlows accrued face
                strikePrice true expiryStep seeds s).2 kN := by
  intro s
  induction s with
  | zero => exact ⟨rfl, fun kN => le_refl _⟩
  | succ s ih =>
      obtain ⟨ihb, iho⟩ := ih
      constructor
      · simp only [rollbackPair]
        rw [ihb]
      · intro kN
        simp only [rollbackPair]
        rw [ihb]
        unfold rollStepOption
        by_cases hin :
            -(min ((expiryStep - (s + 1) : ℕ) : ℤ) jmax) ≤ kN - jmax
              ∧ kN - jmax ≤ min ((expiryStep - (s + 1) : ℕ) : ℤ) jmax
        · rw [if_pos hin, if_pos hin]
          have hhold :
              rollValue jmax (pu kN) (pm kN) (pd kN)
                  (Real.exp (-(rt (expiryStep - (s + 1)) kN * dt)))
                  (rollbackPair jmax pu pm pd rt dt treeFlows accrued face
                    strikePrice false expiryStep seeds s).2 (kN - jmax)
                ≤ rollValue jmax (pu kN) (pm kN) (pd kN)
                    (Real.exp (-(rt (expiryStep - (s + 1)) kN * dt)))
                    (rollbackPair jmax pu pm pd rt dt treeFlows accrued face
                      strikePrice true expiryStep seeds s).2 (kN - jmax) :=
            rollValue_mono jmax _ _ _ _ (hpu kN) (hpm kN) (hpd kN)
              (le_of_lt (Real.exp_pos _)) _ _ iho _
          exact le_trans hhold (le_max_right _ _)
        · rw [if_neg hin, if_neg hin]

/-- europeanBondOption of the source after its validation prologue: at the
expiry step (int(texp/dt + 0.5)) every array offset k contributes its
Arrow-Debreu weight times the option payoff on the bond price pv.  The
coupon amount cpn stands for bond coupon divided by bond frequency; pv sums
cpn * zcb over the flow times and then adds the zcb of the final loop
iteration once more (the source reuses the loop variable zcb after the
loop, so the last flow time is used; flowTimes is nonempty whenever the
source runs).  Q and rt are read at array offsets 0..numNodes-1. -/
def europeanBondOption (a sigma dt : ℝ) (curvedf : ℝ → ℝ) (Q rt : ℕ → ℤ → ℝ)
    (numNodes : ℤ) (texp : ℝ) (flowTimes : List ℝ)
    (cpn strikePrice face : ℝ) : ℝ × ℝ :=
  let ptexp := curvedf texp
  let ptdelta := curvedf (texp + dt)
  let expiryStep := (⌊texp / dt + 0.5⌋).toNat
  let pv := fun k : ℤ =>
    (flowTimes.map (fun tflow =>
        cpn * hwP a sigma texp tflow (rt expiryStep k) dt ptexp ptdelta
          (curvedf tflow))).sum
      + hwP a sigma texp (flowTimes.getLastD 0) (rt expiryStep k) dt ptexp
          ptdelta (curvedf (flowTimes.getLastD 0))
  (∑ k ∈ Finset.Icc 0 (numNodes - 1),
      Q expiryStep k * max (pv k * face - strikePrice) 0,
   ∑ k ∈ Finset.Icc 0 (numNodes - 1),
      Q expiryStep k * max (strikePrice - pv k * face) 0)

/-- europeanOptionOnZeroCouponBond_Tree of the source after its validation
prologue: the zero-coupon variant of the expiry-step aggregation. -/
def europeanOptionOnZeroCouponBond_Tree (a sigma dt : ℝ) (curvedf : ℝ → ℝ)
    (Q rt : ℕ → ℤ → ℝ) (numNodes : ℤ) (texp tmat strikePrice face : ℝ) :
    ℝ × ℝ :=
  let ptexp := curvedf texp
  let ptdelta := curvedf (texp + dt)
  let ptmat := curvedf tmat
  let expiryStep := (⌊texp / dt + 0.5⌋).toNat
  let zcb := fun k : ℤ =>
    hwP a sigma texp tmat (rt expiryStep k) dt ptexp ptdelta ptmat
  (∑ k ∈ Finset.Icc 0 (numNodes - 1),
      Q expiryStep k * max (zcb k * face - strikePrice) 0,
   ∑ k ∈ Finset.Icc 0 (numNodes - 1),
      Q expiryStep k * max (strikePrice - zcb k * face) 0)

/-- The validation prologue of bondOption: option expiry after bond
maturity, then a negative expiry, are rejected before anything else is
computed; the remainder of the method is abstracted as the
already-computed result pair. -/
def bondOptionChecked (texp tmat : ℝ) (result : ℝ × ℝ) :
    Except String (ℝ × ℝ) :=
  if texp > tmat then Except.error "Option expiry after bond matures."
  else if texp < 0 then Except.error "Option expiry time negative."
  else Except.ok result

/-- The instance state of a FinHullWhiteRateModel object: the two
parameters, the lattice fields assigned by buildTree, and the two value
grids assigned by bondOption.  Array-valued fields are embedded as total
functions. -/
structure HWState where
  a : ℝ
  sigma : ℝ
  Q : ℕ → ℤ → ℝ
  rt : ℕ → ℤ → ℝ
  pu : ℤ → ℝ
  pm : ℤ → ℝ
  pd : ℤ → ℝ
  dt : ℝ
  treeTimes : ℕ → ℝ
  discountCurve : ℝ → ℝ
  bondValues : ℕ → ℤ → ℝ
  optionValues : ℕ → ℤ → ℝ

/-- The tuple of lattice fields written by buildTree; every pricer is
supposed to leave it untouched. -/
def latticeFields (s : HWState) :=
  (s.Q, s.rt, s.pu, s.pm, s.pd, s.dt, s.treeTimes, s.discountCurve)

/-- europeanBondOption as a state transition: the method body contains no
assignment to self, so the state is returned unchanged next to the
result. -/
def europeanBondOptionS (numNodes : ℤ) (texp : ℝ) (flowTimes : List ℝ)
    (cpn strikePrice face : ℝ) (s : HWState) : (ℝ × ℝ) × HWState :=
  (europeanBondOption s.a s.sigma s.dt s.discountCurve s.Q s.rt numNodes
    texp flowTimes cpn strikePrice face, s)

/-- europeanOptionOnZeroCouponBond_Tree as a state transition: no
assignment to self occurs in its body. -/
def europeanOptionOnZeroCouponBond_TreeS (numNodes : ℤ)
    (texp tmat strikePrice face : ℝ) (s : HWState) : (ℝ × ℝ) × HWState :=
  (europeanOptionOnZeroCouponBond_Tree s.a s.sigma s.dt s.discountCurve
    s.Q s.rt numNodes texp tmat strikePrice face, s)

/-- df_Tree as a state transition: a pure read of the stored lattice. -/
def df_TreeS (jmax : ℤ) (tmat : ℝ) (s : HWState) :
    Except String (ℝ ⊕ ℝ × ℝ) × HWState :=
  (df_Tree s.Q jmax s.dt tmat, s)

/-- bondOption as a state transition: the local grids bondValues and
optionValues (row m of each grid is the rollback of the seeded expiry rows
down to step m; rows above the expiry step stay zero) are assigned to
self._bondValues and self._optionValues at the end of the method, and the
pair (optionValues[0,N], bondValues[0,N]) is returned.  The flow,
accrued-interest and expiry-row seed arrays the method computes before its
loop are taken as inputs; none of them involves americanExercise or any
assignment to self. -/
def bondOptionS (jmax : ℤ) (expiryStep : ℕ) (treeFlows accrued : ℕ → ℝ)
    (face strikePrice : ℝ) (american : Bool) (seeds : (ℤ → ℝ) × (ℤ → ℝ))
    (s : HWState) : (ℝ × ℝ) × HWState :=
  let table := fun m : ℕ =>
    if m ≤ expiryStep then
      rollbackPair jmax s.pu s.pm s.pd s.rt s.dt treeFlows accrued face
        strikePrice american expiryStep seeds (expiryStep - m)
    else ((fun _ => 0), (fun _ => 0))
  (((table 0).2 jmax, (table 0).1 jmax),
   { s with bondValues := fun m kN => (table m).1 kN,
            optionValues := fun m kN => (table m).2 kN })

/-- C3: for every lattice parameterization (any a, dt, jmax) and every
spatial index j, the three transition probabilities of buildTreeFast sum
to one, exactly in real arithmetic, in each of the three closed-form cases
(top boundary j = jmax, bottom boundary j = -jmax, interior). -/
theorem C3_prob_rows_sum_to_one (a dt : ℝ) (jmax j : ℤ) :
    probUp a dt jmax j + probMid a dt jmax j + probDn a dt jmax j = 1 :=
  prob_sum a dt jmax j

/-- C4: the Arrow-Debreu propagation of buildTreeFast distributes, from
every occupied source node j of step m, the mass Q[m,j]*prob*exp(-r*dt) to
exactly the three step-(m+1) targets of the boundary branching pattern:
the top node j = jmax to (j, j-1, j-2) with (pu, pm, pd), the bottom node
j = -jmax to (j, j+1, j+2) with (pd, pm, pu), and interior nodes to
(j+1, j, j-1) with (pu, pm, pd); row m+1 at every index t is exactly the
sum of these contributions. -/
theorem C4_propagation_pattern (a dR dt : ℝ) (jmax : ℤ) (dfs : ℕ → ℝ)
    (hjmax : 0 ≤ jmax) (m : ℕ) (t : ℤ) :
    hwQ a dR dt jmax dfs (m + 1) t
      = ∑ j ∈ Finset.Icc (-(min (m : ℤ) jmax)) (min (m : ℤ) jmax),
          hwQ a dR dt jmax dfs m j
            * Real.exp (-(hwRt a dR dt jmax dfs m j * dt))
            * branchWeight jmax (probUp a dt jmax) (probMid a dt jmax)
                (probDn a dt jmax) j t :=
  hwQ_succ_apply a dR dt jmax dfs hjmax m t

theorem C4_propagation_pattern_witness :
    hwQ 1 0 1 1 (fun _ => 1) (0 + 1) 0
      = ∑ j ∈ Finset.Icc (-(min ((0 : ℕ) : ℤ) 1)) (min ((0 : ℕ) : ℤ) 1),
          hwQ 1 0 1 1 (fun _ => 1) 0 j
            * Real.exp (-(hwRt 1 0 1 1 (fun _ => 1) 0 j * 1))
            * branchWeight 1 (probUp 1 1 1) (probMid 1 1 1) (probDn 1 1 1)
                j 0 :=
  C4_propagation_pattern 1 0 1 1 (fun _ => 1) (by norm_num) 0 0

/-- A concrete row of child values that distinguishes the two dispatches:
offset 4 (the top of a 5-node grid) holds 8, all other offsets hold their
own index. -/
def exampleRow (i : ℤ) : ℝ := if i = 4 then 8 else (i : ℝ)

/-- C2, code defect: in the rollback of bondOption the second boundary
test repeats k == jmax and can never fire, so the bottom-boundary node
k = -jmax is rolled back with the interior formula: with jmax = 2 the node
k = -2 (offset kN = 0) reads the children at offsets kN+1, kN, kN-1 =
1, 0, -1 (numpy wraps -1 to offset 4, the top of the grid) instead of the
bottom-boundary children at offsets kN+2, kN+1, kN = 2, 1, 0 prescribed by
the specification, and the two values differ on the row exampleRow. -/
theorem C2_bottom_boundary_misroute :
    rollValue 2 (1/6) (1/3) (1/2) 1 exampleRow (-2)
      = (1/6 : ℝ) * exampleRow 1 + 1/3 * exampleRow 0 + 1/2 * exampleRow 4
    ∧ rollValue 2 (1/6) (1/3) (1/2) 1 exampleRow (-2)
      ≠ (1/6 : ℝ) * exampleRow 2 + 1/3 * exampleRow 1
          + 1/2 * exampleRow 0 := by
  constructor
  · norm_num [rollValue, readOfs, exampleRow]
  · norm_num [rollValue, readOfs, exampleRow]

/-- C10, code defect: the array offsets that the rollback of bondOption
reads from row m+1 at the bottom-boundary node k = -jmax (occupied
whenever the expiry step exceeds jmax) are kN+1, kN, kN-1 with kN = 0, so
the offset -1 is read, outside the valid range 0..2*jmax; with jmax = 2
the read offsets are [1, 0, -1]. -/
theorem C10_rollback_reads_offset_minus_one :
    rollReadOffsets 2 (-2) = [1, 0, -1]
    ∧ ¬ (∀ i ∈ rollReadOffsets 2 (-2), 0 ≤ i ∧ i ≤ 2 * 2) := by
  constructor
  · decide
  · decide

/-- C9: every pricing call leaves the built lattice unchanged: the state
returned by europeanBondOption, europeanOptionOnZeroCouponBond_Tree and
df_Tree is the input state itself, and bondOption, which assigns only the
two value grids, preserves every lattice field (Q, rt, pu, pm, pd, dt,
treeTimes, discountCurve). -/
theorem C9_pricers_preserve_lattice (s : HWState) :
    (∀ (numNodes : ℤ) (texp : ℝ) (flowTimes : List ℝ)
        (cpn strikePrice face : ℝ),
      (europeanBondOptionS numNodes texp flowTimes cpn strikePrice face
          s).2 = s)
    ∧ (∀ (numNodes : ℤ) (texp tmat strikePrice face : ℝ),
      (europeanOptionOnZeroCouponBond_TreeS numNodes texp tmat strikePrice
          face s).2 = s)
    ∧ (∀ (jmax : ℤ) (tmat : ℝ), (df_TreeS jmax tmat s).2 = s)
    ∧ (∀ (jmax : ℤ) (expiryStep : ℕ) (treeFlows accrued : ℕ → ℝ)
        (face strikePrice : ℝ) (american : Bool)
        (seeds : (ℤ → ℝ) × (ℤ → ℝ)),
      latticeFields ((bondOptionS jmax expiryStep treeFlows accrued face
          strikePrice american seeds s).2) = latticeFields s) :=
  ⟨fun _ _ _ _ _ _ => rfl, fun _ _ _ _ _ => rfl, fun _ _ => rfl,
    fun _ _ _ _ _ _ _ _ => rfl⟩

/-- C8: invalid inputs produce the documented FinError and no result: a
negative volatility, then a negative mean reversion speed, fail model
construction; bondOption fails when the expiry exceeds the bond maturity
or is negative; df_Tree fails when its time is not within 1e-6 of a
multiple of dt.  In the embedding an error result carries no value, so
nothing is computed or assigned past the failed check. -/
theorem C8_validation_errors :
    (∀ a sigma : ℝ, sigma < 0 →
      mkFinHullWhiteRateModel a sigma
        = Except.error "Negative volatility not allowed.")
    ∧ (∀ a sigma : ℝ, 0 ≤ sigma → a < 0 →
      mkFinHullWhiteRateModel a sigma
        = Except.error "Mean reversion speed parameter should be >= 0.")
    ∧ (∀ (texp tmat : ℝ) (r : ℝ × ℝ), tmat < texp →
      bondOptionChecked texp tmat r
        = Except.error "Option expiry after bond matures.")
    ∧ (∀ (texp tmat : ℝ) (r : ℝ × ℝ), texp ≤ tmat → texp < 0 →
      bondOptionChecked texp tmat r
        = Except.error "Option expiry time negative.")
    ∧ (∀ (Q : ℕ → ℤ → ℝ) (jmax : ℤ) (dt tmat : ℝ), tmat ≠ 0 →
      |tmat / dt - ((⌊tmat / dt⌋ : ℤ) : ℝ)| > 1e-6 →
      df_Tree Q jmax dt tmat
        = Except.error "Time not on tree time grid") := by
  refine ⟨?_, ?_, ?_, ?_, ?_⟩
  · intro a sigma h
    unfold mkFinHullWhiteRateModel
    rw [if_pos h]
  · intro a sigma hs ha
    unfold mkFinHullWhiteRateModel
    rw [if_neg (not_lt.mpr hs), if_pos ha]
  · intro texp tmat r h
    unfold bondOptionChecked
    rw [if_pos h]
  · intro texp tmat r h1 h2
    unfold bondOptionChecked
    rw [if_neg (not_lt.mpr h1), if_pos h2]
  · intro Q jmax dt tmat h1 h2
    unfold df_Tree
    rw [if_neg h1, if_pos h2]

theorem C8_validation_errors_witness :
    mkFinHullWhiteRateModel 0.1 (-0.01)
      = Except.error "Negative volatility not allowed."
    ∧ mkFinHullWhiteRateModel (-0.1) 0.01
      = Except.error "Mean reversion speed parameter should be >= 0."
    ∧ bondOptionChecked 2 1 (0, 0)
      = Except.error "Option expiry after bond matures."
    ∧ bondOptionChecked (-1) 1 (0, 0)
      = Except.error "Option expiry time negative."
    ∧ df_Tree (fun _ _ => 0) 1 1 (1 / 2)
      = Except.error "Time not on tree time grid" :=
  ⟨C8_validation_errors.1 0.1 (-0.01) (by norm_num),
   C8_validation_errors.2.1 (-0.1) 0.01 (by norm_num) (by norm_num),
   C8_validation_errors.2.2.1 2 1 (0, 0) (by norm_num),
   C8_validation_errors.2.2.2.1 (-1) 1 (0, 0) (by norm_num) (by norm_num),
   C8_validation_errors.2.2.2.2 (fun _ _ => 0) 1 1 (1 / 2) (by norm_num)
     (by
       have h1 : (⌊(1 / 2 : ℝ) / 1⌋ : ℤ) = 0 := by norm_num
       rw [h1, Int.cast_zero, sub_zero,
         abs_of_nonneg (by norm_num : (0 : ℝ) ≤ 1 / 2 / 1)]
       norm_num)⟩

lemma parity_helper (Ncdf : ℝ → ℝ) (hN : ∀ x, Ncdf x + Ncdf (-x) = 1)
    (F K h s : ℝ) :
    F * Ncdf h - K * Ncdf (h - s) - (K * Ncdf (-h + s) - F * Ncdf (-h))
      = F - K := by
  have e1 := hN h
  have e2 := hN (h - s)
  have e3 : -(h - s) = -h + s := by ring
  rw [e3] at e2
  linear_combination F * e1 - K * e2

/-- C7: put-call parity of europeanOptionOnZeroCouponBond_Anal: for any
standard normal CDF satisfying N(x) + N(-x) = 1, expiry and maturity with
0 <= texp <= tmat, positive strike and face, and discount factors in
(0, 1], the returned call and put prices satisfy
call - put = face * ptmat - strike * ptexp. -/
theorem C7_put_call_parity (Ncdf : ℝ → ℝ)
    (hN : ∀ x, Ncdf x + Ncdf (-x) = 1)
    (a sigma texp tmat strikePrice face ptexp ptmat : ℝ)
    (htexp : 0 ≤ texp) (hmat : texp ≤ tmat)
    (hK : 0 < strikePrice) (hface : 0 < face)
    (hpe0 : 0 < ptexp) (hpe1 : ptexp ≤ 1)
    (hpm0 : 0 < ptmat) (hpm1 : ptmat ≤ 1) :
    (europeanOptionOnZeroCouponBond_Anal Ncdf a sigma texp tmat strikePrice
        face ptexp ptmat).1
      - (europeanOptionOnZeroCouponBond_Anal Ncdf a sigma texp tmat
          strikePrice face ptexp ptmat).2
      = face * ptmat - strikePrice * ptexp := by
  unfold europeanOptionOnZeroCouponBond_Anal
  exact parity_helper Ncdf hN (face * ptmat) (strikePrice * ptexp) _ _

theorem C7_put_call_parity_witness :
    (europeanOptionOnZeroCouponBond_Anal (fun _ => 1 / 2) 1 1 0 1 1 1 1 1).1
      - (europeanOptionOnZeroCouponBond_Anal (fun _ => 1 / 2)
          1 1 0 1 1 1 1 1).2
      = 1 * 1 - 1 * 1 :=
  C7_put_call_parity (fun _ => 1 / 2) (fun x => by norm_num) 1 1 0 1 1 1 1 1
    (le_refl 0) (by norm_num) (by norm_num) (by norm_num) (by norm_num)
    (le_refl 1) (by norm_num) (le_refl 1)

/-- C5: for identical inputs (the same lattice fields and the same seeded
expiry rows; the part of bondOption before the backward loop never reads
americanExercise), and with the stored transition probabilities
nonnegative, the option price returned by bondOption with
americanExercise = true is at least the price returned with
americanExercise = false. -/
theorem C5_american_ge_european (jmax : ℤ) (pu pm pd : ℤ → ℝ)
    (rt : ℕ → ℤ → ℝ) (dt : ℝ) (treeFlows accrued : ℕ → ℝ)
    (face strikePrice : ℝ) (expiryStep : ℕ) (seeds : (ℤ → ℝ) × (ℤ → ℝ))
    (hpu : ∀ i, 0 ≤ pu i) (hpm : ∀ i, 0 ≤ pm i) (hpd : ∀ i, 0 ≤ pd i) :
    (bondOptionResult jmax pu pm pd rt dt treeFlows accrued face strikePrice
        false expiryStep seeds).1
      ≤ (bondOptionResult jmax pu pm pd rt dt treeFlows accrued face
          strikePrice true expiryStep seeds).1 := by
  unfold bondOptionResult
  exact (rollbackPair_mono jmax pu pm pd rt dt treeFlows accrued face
    strikePrice expiryStep seeds hpu hpm hpd expiryStep).2 jmax

theorem C5_american_ge_european_witness :
    (bondOptionResult 1 (fun _ => 1 / 6) (fun _ => 2 / 3) (fun _ => 1 / 6)
        (fun _ _ => 0) 1 (fun _ => 0) (fun _ => 0) 1 0 false 1
        (fun _ => 0, fun _ => 0)).1
      ≤ (bondOptionResult 1 (fun _ => 1 / 6) (fun _ => 2 / 3) (fun _ => 1 / 6)
          (fun _ _ => 0) 1 (fun _ => 0) (fun _ => 0) 1 0 true 1
          (fun _ => 0, fun _ => 0)).1 :=
  C5_american_ge_european 1 (fun _ => 1 / 6) (fun _ => 2 / 3) (fun _ => 1 / 6)
    (fun _ _ => 0) 1 (fun _ => 0) (fun _ => 0) 1 0 1 (fun _ => 0, fun _ => 0)
    (fun i => by norm_num) (fun i => by norm_num) (fun i => by norm_num)

/-- C1: for a lattice built by buildTree (so dt = treeMaturity /
(numTimeSteps+1), dR = sigma*sqrt(3*dt), jmax = ceil(0.1835/(a*dt)),
discountFactors[0] = 1 and discountFactors[i] = the curve discount factor
at treeTimes[i] = i*dt), with a > 0, sigma >= 0, numTimeSteps >= 1,
positive curve values and positivity of each sumQZ the calibration divides
by, the Arrow-Debreu prices of every step m sum to the discount factor of
step m, and the calibrated drift makes the discounted row sum equal the
discount factor of step m+1 (exactly, in the real arithmetic of the
embedding). -/
theorem C1_arrow_debreu_calibration
    (a sigma treeMaturity dt dR : ℝ) (numTimeSteps : ℕ) (jmax : ℤ)
    (curvedf : ℝ → ℝ) (dfs : ℕ → ℝ)
    (ha : 0 < a) (hsigma : 0 ≤ sigma) (hN : 1 ≤ numTimeSteps)
    (hdtpos : 0 < dt) (hdt : dt = treeMaturity / ((numTimeSteps : ℝ) + 1))
    (hdR : dR = sigma * Real.sqrt (3 * dt))
    (hjmax : jmax = ⌈(0.1835 : ℝ) / (a * dt)⌉)
    (hdfs0 : dfs 0 = 1)
    (hdfs : ∀ i : ℕ, 1 ≤ i → dfs i = curvedf ((i : ℝ) * dt))
    (hdfpos : ∀ i, 0 < dfs i)
    (m : ℕ) (hm : m ≤ numTimeSteps + 1)
    (hQZ : ∀ k, k ≤ m →
      0 < hwSumQZ (hwQ a dR dt jmax dfs k) (min (k : ℤ) jmax) dR dt) :
    (∑ j ∈ Finset.Icc (-(min (m : ℤ) jmax)) (min (m : ℤ) jmax),
        hwQ a dR dt jmax dfs m j = dfs m)
    ∧ (m ≤ numTimeSteps →
        ∑ j ∈ Finset.Icc (-(min (m : ℤ) jmax)) (min (m : ℤ) jmax),
          hwQ a dR dt jmax dfs m j
            * Real.exp (-(hwRt a dR dt jmax dfs m j * dt)) = dfs (m + 1)) := by
  have hjm1 : 1 ≤ jmax := by
    have hpos := Int.lt_ceil.mpr
      (show ((0 : ℤ) : ℝ) < 0.1835 / (a * dt) by push_cast; positivity)
    omega
  constructor
  · exact hwQ_sum a dR dt jmax dfs hjm1 (ne_of_gt hdtpos) hdfs0 m
      (fun k hk => hQZ k (by omega)) hdfpos
  · intro hmn
    exact hwQ_calibration a dR dt jmax dfs m (ne_of_gt hdtpos)
      (hQZ m (le_refl m)) (hdfpos (m + 1))

theorem C1_arrow_debreu_calibration_witness :
    (∑ j ∈ Finset.Icc (-(min ((0 : ℕ) : ℤ) 1)) (min ((0 : ℕ) : ℤ) 1),
        hwQ 0.1835 0 1 1 (fun _ => 1) 0 j = 1)
    ∧ ((0 : ℕ) ≤ 1 →
        ∑ j ∈ Finset.Icc (-(min ((0 : ℕ) : ℤ) 1)) (min ((0 : ℕ) : ℤ) 1),
          hwQ 0.1835 0 1 1 (fun _ => 1) 0 j
            * Real.exp (-(hwRt 0.1835 0 1 1 (fun _ => 1) 0 j * 1)) = 1) :=
  C1_arrow_debreu_calibration 0.1835 0 2 1 0 1 1 (fun _ => 1) (fun _ => 1)
    (by norm_num) (le_refl 0) (le_refl 1) (by norm_num)
    (by push_cast; norm_num) (by simp)
    (by rw [show (0.1835 : ℝ) / (0.1835 * 1) = 1 by norm_num]
        exact Int.ceil_one.symm)
    rfl (fun i _ => rfl) (fun i => by norm_num) 0 (by norm_num)
    (fun k hk => by
      interval_cases k
      have hmin : min ((0 : ℕ) : ℤ) 1 = 0 := by omega
      rw [hmin]
      simp [hwSumQZ, hwQ, Real.exp_zero])

/-- The discount factors 1, 1/2, 1/3, ... used in the concrete df_Tree
run of the C6 analysis. -/
def exampleDfs (k : ℕ) : ℝ := 1 / ((k : ℝ) + 1)

lemma df_Tree_on_grid (Q : ℕ → ℤ → ℝ) (jmax : ℤ) (dt tmat : ℝ)
    (h0 : tmat ≠ 0)
    (hcheck : |tmat / dt - ((⌊tmat / dt⌋ : ℤ) : ℝ)| ≤ 1e-6) :
    df_Tree Q jmax dt tmat = Except.ok (Sum.inr
      (∑ j ∈ Finset.Icc (-jmax) jmax, Q (⌊tmat / dt⌋.toNat + 1) j,
       -Real.log (∑ j ∈ Finset.Icc (-jmax) jmax, Q (⌊tmat / dt⌋.toNat + 1) j)
         / tmat)) := by
  unfold df_Tree
  rw [if_neg h0, if_neg (not_lt.mpr hcheck)]

/-- C6, code defect: df_Tree uses timeStep = int(tmat/dt) + 1, so on the
grid time t = n*dt it sums the Arrow-Debreu row of step n+1 and returns
the discount factor to t + dt, not the discount factor at t that its
docstring and the specification describe.  On the calibrated lattice with
discount factors 1, 1/2, 1/3, ... (a = 0.1835, sigma = 0 so dR = 0,
dt = 1, jmax = 1), df_Tree at t = 1*dt returns p = 1/3, the discount
factor of step 2, while the discount factor at t is 1/2; the t = 0 branch
returns the scalar 1 as stated. -/
theorem C6_df_tree_off_by_one :
    df_Tree (hwQ 0.1835 0 1 1 exampleDfs) 1 1 1
      = Except.ok (Sum.inr (1 / 3, -Real.log (1 / 3) / 1))
    ∧ exampleDfs 1 = 1 / 2
    ∧ ((1 : ℝ) / 3 ≠ 1 / 2)
    ∧ df_Tree (hwQ 0.1835 0 1 1 exampleDfs) 1 1 0
      = Except.ok (Sum.inl 1) := by
  have hdfs0 : exampleDfs 0 = 1 := by norm_num [exampleDfs]
  have hdfpos : ∀ k, 0 < exampleDfs k := by
    intro k
    unfold exampleDfs
    positivity
  have hQZ0 : 0 < hwSumQZ (hwQ 0.1835 0 1 1 exampleDfs 0)
      (min ((0 : ℕ) : ℤ) 1) 0 1 := by
    have hmin : min ((0 : ℕ) : ℤ) 1 = 0 := by omega
    rw [hmin]
    simp [hwSumQZ, hwQ, Real.exp_zero]
  have hsum1 : ∑ j ∈ Finset.Icc (-(min ((1 : ℕ) : ℤ) 1)) (min ((1 : ℕ) : ℤ) 1),
      hwQ 0.1835 0 1 1 exampleDfs 1 j = exampleDfs 1 :=
    hwQ_sum 0.1835 0 1 1 exampleDfs (le_refl 1) one_ne_zero hdfs0 1
      (fun k hk => by
        interval_cases k
        exact hQZ0) hdfpos
  have hQZ1 : 0 < hwSumQZ (hwQ 0.1835 0 1 1 exampleDfs 1)
      (min ((1 : ℕ) : ℤ) 1) 0 1 := by
    have he : hwSumQZ (hwQ 0.1835 0 1 1 exampleDfs 1) (min ((1 : ℕ) : ℤ) 1) 0 1
        = ∑ j ∈ Finset.Icc (-(min ((1 : ℕ) : ℤ) 1)) (min ((1 : ℕ) : ℤ) 1),
            hwQ 0.1835 0 1 1 exampleDfs 1 j := by
      unfold hwSumQZ
      apply Finset.sum_congr rfl
      intro j _
      simp
    rw [he, hsum1]
    exact hdfpos 1
  have hsum2 : ∑ j ∈ Finset.Icc (-(min ((2 : ℕ) : ℤ) 1)) (min ((2 : ℕ) : ℤ) 1),
      hwQ 0.1835 0 1 1 exampleDfs 2 j = exampleDfs 2 :=
    hwQ_sum 0.1835 0 1 1 exampleDfs (le_refl 1) one_ne_zero hdfs0 2
      (fun k hk => by
        interval_cases k
        · exact hQZ0
        · exact hQZ1) hdfpos
  have hm2 : min ((2 : ℕ) : ℤ) 1 = 1 := by omega
  rw [hm2] at hsum2
  have hval : exampleDfs 2 = 1 / 3 := by norm_num [exampleDfs]
  rw [hval] at hsum2
  refine ⟨?_, by norm_num [exampleDfs], by norm_num, ?_⟩
  · have hfloor : ⌊(1 : ℝ) / 1⌋ = (1 : ℤ) := by norm_num
    rw [df_Tree_on_grid _ _ _ _ (by norm_num) (by rw [hfloor]; norm_num)]
    have hstep : ⌊(1 : ℝ) / 1⌋.toNat + 1 = 2 := by rw [hfloor]; rfl
    rw [hstep, hsum2]
  · unfold df_Tree
    rw [if_pos rfl]
